import Mathlib

/-!
Verification development for `src/yad2_parser.py`, a vehicle-listing ETL
script.  The per-record normalisation step of `process_vehicle_data`
(lines 70-151), the helpers `get_month_number` (22-29) and
`calculate_years_since_production` (31-35), and the per-category write loop
of `process_directory` (175-198) are shallowly embedded below.

Modelling conventions:
* JSON values are `Yad2.JVal`.  Python dicts become association lists with
  first-match lookup (a real dict has unique keys, so first-match agrees
  with dict lookup on every list that denotes a dict).
* Python ints and floats become `Int` and exact `Rat`; `round(x, 2)` becomes
  `Yad2.round2` (round half away from zero).  Binary floating-point
  representation error and the tie behaviour of float banker's rounding are
  not modelled; no claim below depends on them (non-finite floats are also
  outside the model).
* An operation that raises (`KeyError`, `TypeError`, `AttributeError`,
  `ValueError` from `datetime`) is modelled by `Option`/`none`; the
  `try/except` of the per-item loop turns `none` into `ItemResult.err`.
* `datetime.now()` is abstracted as the proleptic-Gregorian ordinal
  `nowOrd : Int` of the current date (so
  `(datetime.now() - datetime(y, m, 1)).days = nowOrd - toOrdinal y m`,
  the time-of-day component of `now` being a non-negative fraction of a
  day) and as the formatted string `todayStr` used for the placeholder
  date columns.
* The regex character classes `\d` / `\s` are modelled over ASCII digits
  and ASCII whitespace; the claims do not involve non-ASCII digit or
  whitespace codepoints.
-/

namespace Yad2

/-- JSON-like values as produced by `json.loads`: `null`, booleans, ints,
floats, strings, arrays and objects.  Objects are association lists
(first-match lookup = dict lookup for unique keys). -/
inductive JVal where
  | jnull : JVal
  | jbool : Bool → JVal
  | jint : Int → JVal
  | jfloat : Rat → JVal
  | jstr : String → JVal
  | jarr : List JVal → JVal
  | jobj : List (String × JVal) → JVal

/-- First-match association-list lookup: Python `d[k]` / `k in d` for the
dict denoted by the list. -/
def lookupKey {α : Type} : List (String × α) → String → Option α
  | [], _ => none
  | (k, v) :: t, key => if k = key then some v else lookupKey t key

/-- Python `k in d` for a dict. -/
def hasKey {α : Type} (l : List (String × α)) (k : String) : Bool :=
  (lookupKey l k).isSome

/-- Python `v == 0` (never raises): true for `0`, `0.0` and `False`. -/
def pyEqZero : JVal → Bool
  | .jint n => n = 0
  | .jfloat q => q = 0
  | .jbool b => !b
  | _ => false

/-- Numeric coercion used by Python arithmetic/comparison contexts
(`v > 0`, `v / y`): ints, floats and bools are numbers, everything else
raises `TypeError` (`none`). -/
def asNum : JVal → Option Rat
  | .jint n => some (n : Rat)
  | .jfloat q => some q
  | .jbool b => some (if b then 1 else 0)
  | _ => none

/-- Python `v[k]` for a string key: dict lookup (`KeyError` when missing),
`TypeError` on every non-dict. -/
def pyIndex (v : JVal) (k : String) : Option JVal :=
  match v with
  | .jobj f => lookupKey f k
  | _ => none

/-- Python `v.get(k, d)`: only dicts have `.get` (`AttributeError`
otherwise). -/
def pyGetD (v : JVal) (k : String) (d : JVal) : Option JVal :=
  match v with
  | .jobj f => some ((lookupKey f k).getD d)
  | _ => none

/-- Substring test on character lists (Python `needle in haystack` for
strings). -/
def isSubstrL (needle : List Char) : List Char → Bool
  | [] => needle.isEmpty
  | c :: t => needle.isPrefixOf (c :: t) || isSubstrL needle t

/-- Python `e == k` for a string literal `k`: structural equality for
strings, `False` for every other type. -/
def eqStrLit (k : String) : JVal → Bool
  | .jstr s => s = k
  | _ => false

/-- Python `k in v` for a string literal `k`: key test on dicts, substring
test on strings, membership test on lists (string-vs-string comparison is
structural equality, string-vs-other is `False`), `TypeError` on numbers,
booleans and `None`. -/
def pyInStr (k : String) (v : JVal) : Option Bool :=
  match v with
  | .jobj f => some (hasKey f k)
  | .jstr s => some (isSubstrL k.data s.data)
  | .jarr xs => some (xs.any (eqStrLit k))
  | _ => none

/-- Decimal digit character for `n % 10` (explicit table, mirrors the
decimal rendering done by Python `str`/f-strings). -/
def digitChar : Nat → Char
  | 0 => '0' | 1 => '1' | 2 => '2' | 3 => '3' | 4 => '4'
  | 5 => '5' | 6 => '6' | 7 => '7' | 8 => '8' | _ => '9'

/-- Decimal digits of `n`, most significant first; `fuel` bounds the
recursion depth so that the definition is structural (and hence reduces
inside the kernel); any `fuel > n` gives the exact digit string. -/
def natStrL : Nat → Nat → List Char
  | 0, _ => []
  | fuel + 1, n =>
    if n < 10 then [digitChar n]
    else natStrL fuel (n / 10) ++ [digitChar (n % 10)]

/-- Decimal rendering of a natural number (Python `str(n)` for `n ≥ 0`). -/
def natStrRec (n : Nat) : String := String.mk (natStrL (n + 1) n)

/-- Python `str` on an int. -/
def intStr (n : Int) : String :=
  if n < 0 then "-" ++ natStrRec n.natAbs else natStrRec n.toNat

/-- A single-quote character (used by Python `repr` of strings). -/
def quoteCh : String := String.singleton (Char.ofNat 39)

mutual

/-- Python `repr` of a JSON value (containers quote their string elements).
Float rendering is approximated by the `Rat` representation; no claim
evaluates the rendering of a float or container value. -/
def pyRepr : JVal → String
  | .jnull => "None"
  | .jbool b => if b then "True" else "False"
  | .jint n => intStr n
  | .jfloat q => toString q
  | .jstr s => quoteCh ++ s ++ quoteCh
  | .jarr xs => "[" ++ pyReprList xs ++ "]"
  | .jobj fs => "\x7b" ++ pyReprObj fs ++ "\x7d"

/-- Comma-separated `repr` of array elements. -/
def pyReprList : List JVal → String
  | [] => ""
  | [x] => pyRepr x
  | x :: y :: t => pyRepr x ++ ", " ++ pyReprList (y :: t)

/-- Comma-separated `repr` of object entries. -/
def pyReprObj : List (String × JVal) → String
  | [] => ""
  | [(k, v)] => quoteCh ++ k ++ quoteCh ++ ": " ++ pyRepr v
  | (k, v) :: p :: t => quoteCh ++ k ++ quoteCh ++ ": " ++ pyRepr v ++ ", " ++ pyReprObj (p :: t)

end

/-- Python `str` applied to a field value inside an f-string: identity on
strings, `str` of the scalar types (which agrees with their `repr`),
`repr`-style rendering of containers. -/
def pyStr (v : JVal) : String :=
  match v with
  | .jstr s => s
  | .jint n => intStr n
  | .jbool b => if b then "True" else "False"
  | .jnull => "None"
  | .jfloat q => toString q
  | .jarr xs => pyRepr (.jarr xs)
  | .jobj fs => pyRepr (.jobj fs)

/-! ### `get_month_number` (src lines 22-29) -/

/-- The 12-entry Hebrew month-name table (`month_mapping`, lines 24-28). -/
def month_mapping : List (String × Nat) :=
  [("ינואר", 1), ("פברואר", 2), ("מרץ", 3), ("אפריל", 4),
   ("מאי", 5), ("יוני", 6), ("יולי", 7), ("אוגוסט", 8),
   ("ספטמבר", 9), ("אוקטובר", 10), ("נובמבר", 11), ("דצמבר", 12)]

/-- `get_month_number(month_text)` = `month_mapping.get(month_text, 1)`.
The argument is whatever `month_data.get('text', 'ינואר')` returned: a
string is looked up in the table (default 1); any other hashable value is
not a key of the table, so the default 1 is returned; unhashable values
(dicts, lists) make `dict.get` raise `TypeError` (`none`). -/
def get_month_number : JVal → Option Nat
  | .jstr s => some ((lookupKey month_mapping s).getD 1)
  | .jobj _ => none
  | .jarr _ => none
  | _ => some 1

/-! ### `calculate_years_since_production` (src lines 31-35) -/

/-- `True` for Gregorian leap years (`y` is the positive `datetime` year). -/
def isLeap (y : Int) : Bool :=
  y % 4 = 0 && (y % 100 != 0 || y % 400 = 0)

/-- Cumulative day count of the months before month `m` in a non-leap
year. -/
def daysInMonthsBefore : Nat → Nat
  | 1 => 0 | 2 => 31 | 3 => 59 | 4 => 90 | 5 => 120 | 6 => 151
  | 7 => 181 | 8 => 212 | 9 => 243 | 10 => 273 | 11 => 304 | 12 => 334
  | _ => 0

/-- Proleptic-Gregorian ordinal of `datetime(y, m, 1)` (what
`datetime.toordinal` returns; day 1-01-0001 has ordinal 1).  `y ≥ 1` here,
so Lean's truncating `Int` division agrees with Python's floor
division. -/
def toOrdinal (y : Int) (m : Nat) : Int :=
  365 * (y - 1) + (y - 1) / 4 - (y - 1) / 100 + (y - 1) / 400 +
    (daysInMonthsBefore m : Int) + (if 3 ≤ m ∧ isLeap y then 1 else 0) + 1

/-- `calculate_years_since_production`: elapsed days between
`datetime(production_year, production_month, 1)` and now, divided by
365.25.  `(datetime.now() - production_date).days = nowOrd - toOrdinal y m`
exactly, because `now`'s time-of-day is a non-negative fraction of a
day. -/
def calculate_years_since_production (nowOrd : Int) (y : Int) (m : Nat) : Rat :=
  ((nowOrd - toOrdinal y m : Int) : Rat) / (1461 / 4 : Rat)

/-- Python `round(x, 2)` over the rational model: round `100 x` to the
nearest integer and divide back (ties: `round` rounds half up; float
banker's rounding differs only at exact representable ties, which no claim
exercises). -/
def round2 (q : Rat) : Rat :=
  ((round (q * 100) : Int) : Rat) / 100

/-! ### Horsepower extraction: `re.search(r'(\d+)\s*כ״ס', text)`
(src lines 103-105)

The matcher below is the regex specialised to this fixed pattern.  The
three character classes involved (digits, whitespace, the marker letters)
are pairwise disjoint, so the backtracking of `\d+` and `\s*` is
deterministic: at a given start position the only viable match takes the
maximal digit run and the maximal whitespace run.  `re.search` takes the
leftmost start position that matches. -/

/-- ASCII model of the regex class `\d`. -/
def isDigitChar (c : Char) : Bool := c.isDigit

/-- ASCII model of the regex class `\s`. -/
def isSpaceChar (c : Char) : Bool :=
  c = ' ' || c = '\t' || c = '\n' || c = '\r' ||
    c = Char.ofNat 11 || c = Char.ofNat 12

/-- The Hebrew horsepower marker `כ״ס` as a character list. -/
def markerL : List Char := ['כ', '״', 'ס']

/-- Numeric value of a digit run (`int(group(1))`, leading zeros
allowed). -/
def digitsVal (ds : List Char) : Nat :=
  ds.foldl (fun a c => a * 10 + (c.toNat - 48)) 0

/-- Match `(\d+)\s*כ״ס` anchored at the head of `cs`; returns the value of
the capture group. -/
def matchAt (cs : List Char) : Option Nat :=
  if cs.takeWhile isDigitChar ≠ [] ∧
      markerL.isPrefixOf ((cs.dropWhile isDigitChar).dropWhile isSpaceChar) then
    some (digitsVal (cs.takeWhile isDigitChar))
  else none

/-- `re.search`: scan start positions left to right. -/
def hpSearch : List Char → Option Nat
  | [] => none
  | c :: rest =>
    match matchAt (c :: rest) with
    | some n => some n
    | none => hpSearch rest

/-- `hp = int(hp_match.group(1)) if hp_match else 0` (lines 104-105). -/
def hpOf (s : String) : Nat :=
  match hpSearch s.data with
  | some n => n
  | none => 0

/-! ### The per-record step of `process_vehicle_data` (src lines 70-151) -/

/-- Python `f"{month:02d}"` for the month values that occur (0-99). -/
def month2 (m : Nat) : String :=
  if m < 10 then String.mk ['0', digitChar m]
  else String.mk [digitChar (m / 10), digitChar (m % 10)]

/-- Lines 84-87: `year = item['vehicleDates']['yearOfProduction']`,
`month_data = item['vehicleDates'].get('monthOfProduction', {"text": "ינואר"})`,
`month = get_month_number(month_data.get('text', 'ינואר'))`. -/
def prodYM (fields : List (String × JVal)) : Option (JVal × Nat) := do
  let vd ← lookupKey fields "vehicleDates"
  let yv ← pyIndex vd "yearOfProduction"
  let md ← pyGetD vd "monthOfProduction" (.jobj [("text", .jstr "ינואר")])
  let mt ← pyGetD md "text" (.jstr "ינואר")
  let m ← get_month_number mt
  pure (yv, m)

/-- The year argument accepted by `datetime(year, month, 1)` (line 32):
ints (and bools, which are ints in Python) in `MINYEAR..MAXYEAR`;
everything else raises `TypeError`/`ValueError`. -/
def datetimeYear (yv : JVal) : Option Int :=
  match yv with
  | .jint n => if 1 ≤ n ∧ n ≤ 9999 then some n else none
  | .jbool b => if b then some 1 else none
  | _ => none

/-- Lines 98-101: `km_per_year = round(km / years, 2) if years > 0 and
km > 0 else 0`.  The `and` short-circuits: `km > 0` (which raises
`TypeError` on non-numbers) is only evaluated when `years > 0`. -/
def kmPerYearOf (yrs : Rat) (km : JVal) : Option Rat :=
  if 0 < yrs then (asNum km).map (fun k => if 0 < k then round2 (k / yrs) else 0)
  else some 0

/-- Lines 103-104: `re.search(r'(\d+)\s*כ״ס', item['subModel']['text'])`;
`re.search` raises `TypeError` when the subject is not a string. -/
def hpOfSub (fields : List (String × JVal)) : Option Nat := do
  let sm ← lookupKey fields "subModel"
  let t ← pyIndex sm "text"
  match t with
  | .jstr s => some (hpOf s)
  | _ => none

/-- Lines 107-113: the city block (`''` default; `if 'city' in
item['address']`, `elif 'area' in item['address']`, each branch doing
`...get('text', '')`). -/
def cityOf (fields : List (String × JVal)) : Option JVal :=
  match lookupKey fields "address" with
  | none => some (.jstr "")
  | some a => do
    let hasCity ← pyInStr "city" a
    if hasCity then do
      let cv ← pyIndex a "city"
      pyGetD cv "text" (.jstr "")
    else do
      let hasArea ← pyInStr "area" a
      if hasArea then do
        let av ← pyIndex a "area"
        pyGetD av "text" (.jstr "")
      else pure (.jstr "")

/-- Lines 116-118: `description = item['metaData']['description']` when
`'metaData' in item and 'description' in item['metaData']`, else `''`. -/
def descOf (fields : List (String × JVal)) : Option JVal :=
  match lookupKey fields "metaData" with
  | none => some (.jstr "")
  | some md => do
    let b ← pyInStr "description" md
    if b then pyIndex md "description" else pure (.jstr "")

/-- Line 134: `item.get('hand', {"id": 0})["id"]`. -/
def handOf (fields : List (String × JVal)) : Option JVal :=
  pyIndex ((lookupKey fields "hand").getD (.jobj [("id", .jint 0)])) "id"

/-- The 19-column output row (`headers`, lines 58-60 / `row`,
lines 123-143). -/
structure Row where
  adNumber : JVal
  price : JVal
  city : JVal
  adType : JVal
  model : JVal
  subModel : JVal
  productionDate : String
  km : JVal
  hand : JVal
  createdAt : String
  updatedAt : String
  rebouncedAt : String
  listingType : String
  number_of_years : Rat
  km_per_year : Rat
  description : JVal
  link : String
  make : JVal
  hp : Nat

/-- Lines 84-143: build one row for an item that passed the price and
required-field checks.  `none` = some field access raised, so the
`except` clauses skip the record.  The Python statements run in source
order; all the bound computations are effect-free apart from possibly
raising, and one raise anywhere yields `none`, so the order of the binds
below is observationally irrelevant (the pure `production_date` f-string
of line 88 is built after the `datetime` check of line 91 here, while the
source builds it just before; both orders produce a row exactly when no
step raises). -/
def buildRow (nowOrd : Int) (todayStr lt : String) (fields : List (String × JVal)) :
    Option Row := do
  let p ← prodYM fields
  let y ← datetimeYear p.1
  let pd := pyStr p.1 ++ "-" ++ month2 p.2 ++ "-01"
  let yrs := calculate_years_since_production nowOrd y p.2
  let km := (lookupKey fields "km").getD (.jint 0)
  let kmpy ← kmPerYearOf yrs km
  let hp ← hpOfSub fields
  let city ← cityOf fields
  let desc ← descOf fields
  let mdv ← lookupKey fields "model"
  let mdl ← pyIndex mdv "text"
  let mfv ← lookupKey fields "manufacturer"
  let mk ← pyIndex mfv "text"
  let price ← lookupKey fields "price"
  let hand ← handOf fields
  let tok ← lookupKey fields "token"
  let smv ← lookupKey fields "subModel"
  let smt ← pyIndex smv "text"
  pure
    { adNumber := (lookupKey fields "orderId").getD ((lookupKey fields "token").getD (.jstr "unknown"))
      price := price
      city := city
      adType := (lookupKey fields "adType").getD (.jstr "")
      model := mdl
      subModel := smt
      productionDate := pd
      km := km
      hand := hand
      createdAt := todayStr
      updatedAt := todayStr
      rebouncedAt := todayStr
      listingType := lt
      number_of_years := round2 yrs
      km_per_year := kmpy
      description := desc
      link := "https://www.yad2.co.il/vehicles/item/" ++ pyStr tok
      make := mk
      hp := hp }

/-- Line 76: skip when `'price' not in item or item['price'] == 0`. -/
def priceSkip (fields : List (String × JVal)) : Bool :=
  match lookupKey fields "price" with
  | none => true
  | some v => pyEqZero v

/-- Line 80: `required_fields`. -/
def requiredFields : List String :=
  ["manufacturer", "model", "subModel", "vehicleDates", "token"]

/-- Lines 81-82: skip unless `all(field in item for field in
required_fields)`. -/
def reqSkip (fields : List (String × JVal)) : Bool :=
  !(requiredFields.all (fun f => (lookupKey fields f).isSome))

/-- Outcome of one iteration of the `for item in json_list` loop:
`skip` = one of the two `continue`s fired (lines 77, 82); `err` = an
exception was caught by the `except` clauses (lines 146-151); `ok` = the
row was written (line 144). -/
inductive ItemResult where
  | skip : ItemResult
  | err : ItemResult
  | ok : Row → ItemResult

/-- The written row, if any. -/
def ItemResult.rowOf : ItemResult → Option Row
  | .ok r => some r
  | _ => none

/-- `True` iff a row was written. -/
def ItemResult.isOk : ItemResult → Bool
  | .ok _ => true
  | _ => false

/-- One iteration of the item loop (lines 70-151).  A non-dict item makes
`item.get('orderId', ...)` (line 73) raise `AttributeError`, caught as
`err`; for a dict the two skip checks run (nothing before them can
raise), then the row build either succeeds or raises. -/
def processItem (nowOrd : Int) (todayStr lt : String) (item : JVal) : ItemResult :=
  match item with
  | .jobj fields =>
    if priceSkip fields then .skip
    else if reqSkip fields then .skip
    else
      match buildRow nowOrd todayStr lt fields with
      | some r => .ok r
      | none => .err
  | _ => .err

/-- The rows written by the loop, in order (one `writer.writerow` per
`ok`). -/
def processList (nowOrd : Int) (todayStr lt : String) : List JVal → List Row
  | [] => []
  | item :: rest =>
    match processItem nowOrd todayStr lt item with
    | .ok r => r :: processList nowOrd todayStr lt rest
    | _ => processList nowOrd todayStr lt rest

/-- `processed_count` (lines 68, 145): incremented once per written
row. -/
def processCount (nowOrd : Int) (todayStr lt : String) : List JVal → Nat
  | [] => 0
  | item :: rest =>
    match processItem nowOrd todayStr lt item with
    | .ok _ => 1 + processCount nowOrd todayStr lt rest
    | _ => processCount nowOrd todayStr lt rest

/-! ### File writing (src lines 62-66, 144, 153-155, 175-198) -/

/-- The `mode` argument of `process_vehicle_data`: `'w'` or `'a'`. -/
inductive Mode where
  | w : Mode
  | a : Mode
deriving DecidableEq

/-- One CSV line of the output file: the header line or a data row. -/
inductive Entry where
  | header : Entry
  | data : Row → Entry

/-- `True` on the header line. -/
def Entry.isHeader : Entry → Bool
  | .header => true
  | _ => false

/-- `process_vehicle_data(json_list, listing_type, output_file, mode)`:
the resulting file content (lines 62-66: `'w'` truncates and writes the
header; `'a'` appends, no header) paired with the reported success count
(lines 153-155: printed only when `processed_count > 0`). -/
def process_vehicle_data (nowOrd : Int) (todayStr lt : String) (mode : Mode)
    (old : List Entry) (items : List JVal) : List Entry × Option Nat :=
  ((if mode = Mode.w then [Entry.header] else old) ++
     (processList nowOrd todayStr lt items).map Entry.data,
   if 0 < processCount nowOrd todayStr lt items then
     some (processCount nowOrd todayStr lt items)
   else none)

/-- One category block of `process_directory` (e.g. lines 176-179): when
the category list is non-empty, choose `'a'` if the output file exists
else `'w'`, and run `process_vehicle_data`.  The file state is `none`
when the file does not exist, `some content` otherwise. -/
def categoryWrite (nowOrd : Int) (todayStr lt : String) (items : List JVal)
    (fs : Option (List Entry)) : Option (List Entry) :=
  if items.isEmpty then fs
  else
    match fs with
    | none => some (process_vehicle_data nowOrd todayStr lt Mode.w [] items).1
    | some c => some (process_vehicle_data nowOrd todayStr lt Mode.a c items).1

/-- The sequence of category writes performed by a `process_directory` run
(four categories per matching file, files in listing order), folded over
the output-file state. -/
def runBatches (nowOrd : Int) (todayStr : String) :
    List (String × List JVal) → Option (List Entry) → Option (List Entry)
  | [], fs => fs
  | (lt, items) :: rest, fs =>
    runBatches nowOrd todayStr rest (categoryWrite nowOrd todayStr lt items fs)

/-! ### Spec-side definitions (translated from the specification's words,
for comparison with the code model above) -/

/-- Spec: "it skips whenever `price` is absent or equals 0, and whenever
any of the five fields `manufacturer`, `model`, `subModel`,
`vehicleDates`, `token` is absent". -/
def specSkip (fields : List (String × JVal)) : Prop :=
  (lookupKey fields "price" = none ∨
    ∃ v, lookupKey fields "price" = some v ∧ pyEqZero v = true) ∨
  ∃ f, f ∈ requiredFields ∧ lookupKey fields f = none

/-- Spec (C4): an integer token followed (up to optional whitespace) by
the marker `כ״ס` occurs at position `i` of the text with value `n`. -/
def specOccursAt (cs : List Char) (i n : Nat) : Prop :=
  ∃ ds ws rest, cs.drop i = ds ++ ws ++ markerL ++ rest ∧ ds ≠ [] ∧
    (∀ c ∈ ds, isDigitChar c = true) ∧ (∀ c ∈ ws, isSpaceChar c = true) ∧
    n = digitsVal ds

/-- Spec (C6, as written): "`city` equals `address.city.text` when that
text exists; otherwise equals `address.area.text` when that text exists;
otherwise equals the empty string". -/
def citySpecClaimed (fields : List (String × JVal)) : JVal :=
  match (do
    let a ← lookupKey fields "address"
    let c ← pyIndex a "city"
    pyIndex c "text") with
  | some t => t
  | none =>
    match (do
      let a ← lookupKey fields "address"
      let ar ← pyIndex a "area"
      pyIndex ar "text") with
    | some t => t
    | none => .jstr ""

/-- `True` when the `address` field is absent or is a mapping (the shape
the data model in the spec gives it). -/
def addrOkB (fields : List (String × JVal)) : Bool :=
  match lookupKey fields "address" with
  | none => true
  | some (.jobj _) => true
  | some _ => false

/-- Spec (C6, amended): city is keyed on the *presence* of the `city` /
`area` keys of the address mapping, with `.get('text', '')` applied to
the chosen entry (a present entry that is not itself a mapping makes the
record error out, hence `none`). -/
def citySpecAmended (fields : List (String × JVal)) : Option JVal :=
  match lookupKey fields "address" with
  | none => some (.jstr "")
  | some (.jobj af) =>
    match lookupKey af "city" with
    | some (.jobj cf) => some ((lookupKey cf "text").getD (.jstr ""))
    | some _ => none
    | none =>
      match lookupKey af "area" with
      | some (.jobj av) => some ((lookupKey av "text").getD (.jstr ""))
      | some _ => none
      | none => some (.jstr "")
  | some _ => none

/-- The regex `^\d{4}-\d{2}-01$` of the spec, as a decidable shape test on
the rendered date string. -/
def matchesDatePattern (s : String) : Bool :=
  match s.data with
  | [a, b, c, d, h1, e, f, h2, g, i] =>
    isDigitChar a && isDigitChar b && isDigitChar c && isDigitChar d &&
      h1 = '-' && isDigitChar e && isDigitChar f && h2 = '-' &&
      g = '0' && i = '1'
  | _ => false

/-! ### Helper lemmas -/

theorem processItem_ok_iff {nowOrd : Int} {todayStr lt : String}
    {fields : List (String × JVal)} {r : Row} :
    processItem nowOrd todayStr lt (.jobj fields) = .ok r ↔
      priceSkip fields = false ∧ reqSkip fields = false ∧
        buildRow nowOrd todayStr lt fields = some r := by
  simp only [processItem]
  split_ifs with h1 h2
  · simp [h1]
  · simp [h1, h2]
  · simp only [h1, h2, true_and]
    cases hb : buildRow nowOrd todayStr lt fields <;> simp [hb]

theorem processItem_skip_iff {nowOrd : Int} {todayStr lt : String}
    {fields : List (String × JVal)} :
    processItem nowOrd todayStr lt (.jobj fields) = .skip ↔
      (priceSkip fields = true ∨ reqSkip fields = true) := by
  simp only [processItem]
  split_ifs with h1 h2
  · simp [h1]
  · simp [h2]
  · simp only [Bool.not_eq_true] at h1 h2
    cases hb : buildRow nowOrd todayStr lt fields <;> simp [h1, h2]

/-- Inversion of the row build: every successfully written row satisfies
the defining equations of its derived fields. -/
theorem buildRow_some {nowOrd : Int} {todayStr lt : String}
    {fields : List (String × JVal)} {r : Row}
    (h : buildRow nowOrd todayStr lt fields = some r) :
    ∃ yv m y, prodYM fields = some (yv, m) ∧ datetimeYear yv = some y ∧
      r.productionDate = pyStr yv ++ "-" ++ month2 m ++ "-01" ∧
      r.number_of_years = round2 (calculate_years_since_production nowOrd y m) ∧
      r.km = (lookupKey fields "km").getD (.jint 0) ∧
      kmPerYearOf (calculate_years_since_production nowOrd y m) r.km = some r.km_per_year ∧
      hpOfSub fields = some r.hp ∧
      cityOf fields = some r.city ∧
      handOf fields = some r.hand := by
  unfold buildRow at h
  obtain ⟨p, hp, h⟩ := Option.bind_eq_some.mp h
  obtain ⟨y, hy, h⟩ := Option.bind_eq_some.mp h
  obtain ⟨kmpy, hkmpy, h⟩ := Option.bind_eq_some.mp h
  obtain ⟨hpv, hhp, h⟩ := Option.bind_eq_some.mp h
  obtain ⟨city, hcity, h⟩ := Option.bind_eq_some.mp h
  obtain ⟨desc, hdesc, h⟩ := Option.bind_eq_some.mp h
  obtain ⟨mdv, hmdv, h⟩ := Option.bind_eq_some.mp h
  obtain ⟨mdl, hmdl, h⟩ := Option.bind_eq_some.mp h
  obtain ⟨mfv, hmfv, h⟩ := Option.bind_eq_some.mp h
  obtain ⟨mk, hmk, h⟩ := Option.bind_eq_some.mp h
  obtain ⟨price, hprice, h⟩ := Option.bind_eq_some.mp h
  obtain ⟨hand, hhand, h⟩ := Option.bind_eq_some.mp h
  obtain ⟨tok, htok, h⟩ := Option.bind_eq_some.mp h
  obtain ⟨smv, hsmv, h⟩ := Option.bind_eq_some.mp h
  obtain ⟨smt, hsmt, h⟩ := Option.bind_eq_some.mp h
  have hr := Option.some_inj.mp h
  subst hr
  exact ⟨p.1, p.2, y, by simpa using hp, hy, rfl, rfl, rfl, hkmpy, hhp, hcity, hhand⟩

theorem priceSkip_iff {fields : List (String × JVal)} :
    priceSkip fields = true ↔
      (lookupKey fields "price" = none ∨
        ∃ v, lookupKey fields "price" = some v ∧ pyEqZero v = true) := by
  unfold priceSkip
  cases hl : lookupKey fields "price" <;> simp [hl]

theorem reqSkip_iff {fields : List (String × JVal)} :
    reqSkip fields = true ↔ ∃ f, f ∈ requiredFields ∧ lookupKey fields f = none := by
  unfold reqSkip
  rw [Bool.not_eq_true', ← Bool.not_eq_true, List.all_eq_true]
  push_neg
  constructor
  · rintro ⟨f, hf, hns⟩
    refine ⟨f, hf, ?_⟩
    cases h : lookupKey fields f with
    | none => rfl
    | some v => rw [h] at hns; simp at hns
  · rintro ⟨f, hf, hlf⟩
    exact ⟨f, hf, by simp [hlf]⟩

theorem ItemResult.isOk_iff {x : ItemResult} :
    x.isOk = true ↔ ∃ r, x = .ok r := by
  cases x <;> simp [ItemResult.isOk]

/-- **C1.**  For a listing record (a dict), the per-item step yields a
policy `Skip` (one of the two `continue`s) exactly when the spec's skip
policy requires it: `price` absent or `== 0`, or one of the five required
fields absent.  (A record passing both checks is never a `Skip`: it is
either converted or dropped by a caught field-access failure, the two
remaining constructors of `ItemResult`.) -/
theorem C1_skip_policy (nowOrd : Int) (todayStr lt : String)
    (fields : List (String × JVal)) :
    processItem nowOrd todayStr lt (.jobj fields) = .skip ↔ specSkip fields := by
  rw [processItem_skip_iff, specSkip]
  exact or_congr priceSkip_iff reqSkip_iff

theorem processList_append (nowOrd : Int) (todayStr lt : String) (xs ys : List JVal) :
    processList nowOrd todayStr lt (xs ++ ys) =
      processList nowOrd todayStr lt xs ++ processList nowOrd todayStr lt ys := by
  induction xs with
  | nil => rfl
  | cons x t ih =>
    simp only [List.cons_append, processList]
    cases processItem nowOrd todayStr lt x <;> simp [ih]

theorem processCount_append (nowOrd : Int) (todayStr lt : String) (xs ys : List JVal) :
    processCount nowOrd todayStr lt (xs ++ ys) =
      processCount nowOrd todayStr lt xs + processCount nowOrd todayStr lt ys := by
  induction xs with
  | nil => simp [processCount]
  | cons x t ih =>
    simp only [List.cons_append, processCount]
    cases processItem nowOrd todayStr lt x <;> simp [ih] <;> omega

/-- **C5.**  A per-record failure (a caught exception, `ItemResult.err`)
excludes exactly that record: the rows written for a list containing the
failing record are the rows of the records before it followed by the rows
of every record after it, and the success count adds up the same way —
the loop continues, nothing aborts. -/
theorem C5_error_containment (nowOrd : Int) (todayStr lt : String)
    (l1 l2 : List JVal) (bad : JVal)
    (hbad : processItem nowOrd todayStr lt bad = .err) :
    processList nowOrd todayStr lt (l1 ++ bad :: l2) =
      processList nowOrd todayStr lt l1 ++ processList nowOrd todayStr lt l2 ∧
    processCount nowOrd todayStr lt (l1 ++ bad :: l2) =
      processCount nowOrd todayStr lt l1 + processCount nowOrd todayStr lt l2 := by
  rw [processList_append, processCount_append]
  constructor
  · simp [processList, hbad]
  · simp [processCount, hbad]

/-- Witness for C5 at a concrete batch: a `None` item (no `.get`
attribute) fails, the valid records on both sides are still written. -/
theorem C5_error_containment_witness :
    processItem 737425 "2020-01-01" "private" JVal.jnull = .err ∧
    processList 737425 "2020-01-01" "private" ([.jobj []] ++ .jnull :: [.jobj []]) =
      processList 737425 "2020-01-01" "private" [.jobj []] ++
        processList 737425 "2020-01-01" "private" [.jobj []] :=
  ⟨rfl, (C5_error_containment 737425 "2020-01-01" "private" [.jobj []] [.jobj []]
      JVal.jnull rfl).1⟩

theorem processList_eq_filterMap (nowOrd : Int) (todayStr lt : String)
    (items : List JVal) :
    processList nowOrd todayStr lt items =
      items.filterMap (fun i => (processItem nowOrd todayStr lt i).rowOf) := by
  induction items with
  | nil => rfl
  | cons x t ih =>
    simp only [processList, List.filterMap_cons]
    cases processItem nowOrd todayStr lt x <;> simp [ItemResult.rowOf, ih]

theorem processCount_eq_length (nowOrd : Int) (todayStr lt : String)
    (items : List JVal) :
    processCount nowOrd todayStr lt items =
      (processList nowOrd todayStr lt items).length := by
  induction items with
  | nil => rfl
  | cons x t ih =>
    simp only [processCount, processList]
    cases processItem nowOrd todayStr lt x <;> simp [ih] <;> omega

/-- **C8 (amended).**  One data row is appended per successfully
normalized record (the appended block is exactly the `ok` rows, in
order), and `processed_count` equals the number of rows written; the
count is printed at the end of the call **only when it is positive** — a
call with zero successes reports nothing (the claim's "reported at the
end of each call" fails for such calls, see the counterexample). -/
theorem C8_row_per_success_and_count (nowOrd : Int) (todayStr lt : String)
    (mode : Mode) (old : List Entry) (items : List JVal) :
    (process_vehicle_data nowOrd todayStr lt mode old items).1 =
      (if mode = Mode.w then [Entry.header] else old) ++
        (items.filterMap (fun i => (processItem nowOrd todayStr lt i).rowOf)).map
          Entry.data ∧
    processCount nowOrd todayStr lt items =
      (items.filterMap (fun i => (processItem nowOrd todayStr lt i).rowOf)).length ∧
    (process_vehicle_data nowOrd todayStr lt mode old items).2 =
      (if 0 < processCount nowOrd todayStr lt items then
        some (processCount nowOrd todayStr lt items)
      else none) := by
  refine ⟨?_, ?_, rfl⟩
  · simp [process_vehicle_data, processList_eq_filterMap]
  · rw [processCount_eq_length, processList_eq_filterMap]

/-- Counterexample to **C8** as stated: for a call in which zero records
are successfully normalized, no count is reported at all (the code prints
only when `processed_count > 0`), while the claim requires the count (0)
to be reported at the end of *each* call. -/
theorem C8_zero_count_not_reported :
    (process_vehicle_data 737425 "2020-01-01" "private" Mode.w [] []).2 = none ∧
    processCount 737425 "2020-01-01" "private" ([] : List JVal) = 0 ∧
    (process_vehicle_data 737425 "2020-01-01" "private" Mode.w [] []).2 ≠
      some (processCount 737425 "2020-01-01" "private" ([] : List JVal)) :=
  ⟨rfl, rfl, by simp [process_vehicle_data, processCount]⟩

/-- **C10.**  Invoked in create mode on a non-empty list every record of
which produces no row, `process_vehicle_data` still creates the file with
exactly the header line and zero data rows. -/
theorem C10_header_without_rows (nowOrd : Int) (todayStr lt : String)
    (items : List JVal) (hne : items ≠ [])
    (hskip : ∀ i ∈ items, (processItem nowOrd todayStr lt i).rowOf = none) :
    (process_vehicle_data nowOrd todayStr lt Mode.w [] items).1 = [Entry.header] := by
  have h0 : processList nowOrd todayStr lt items = [] := by
    rw [processList_eq_filterMap]
    exact List.filterMap_eq_nil_iff.mpr hskip
  simp [process_vehicle_data, h0]

/-- Witness for C10: a one-element list whose record is skipped by the
price policy. -/
theorem C10_header_without_rows_witness :
    ([JVal.jobj []] ≠ ([] : List JVal)) ∧
    (process_vehicle_data 737425 "2020-01-01" "private" Mode.w [] [.jobj []]).1 =
      [Entry.header] :=
  ⟨by simp, C10_header_without_rows 737425 "2020-01-01" "private" [.jobj []]
    (by simp) (by intro i hi; simp at hi; subst hi; rfl)⟩

theorem runBatches_from_some (nowOrd : Int) (todayStr : String)
    (batches : List (String × List JVal)) :
    ∀ c : List Entry, ∃ ds : List Entry,
      runBatches nowOrd todayStr batches (some c) = some (c ++ ds) ∧
        ∀ e ∈ ds, e.isHeader = false := by
  induction batches with
  | nil => exact fun c => ⟨[], by simp [runBatches]⟩
  | cons b rest ih =>
    intro c
    obtain ⟨lt, items⟩ := b
    simp only [runBatches, categoryWrite]
    by_cases he : items.isEmpty
    · obtain ⟨ds, hds, hall⟩ := ih c
      refine ⟨ds, ?_, hall⟩
      rw [if_pos he]
      exact hds
    · obtain ⟨ds, hds, hall⟩ :=
        ih (c ++ (processList nowOrd todayStr lt items).map Entry.data)
      refine ⟨(processList nowOrd todayStr lt items).map Entry.data ++ ds, ?_, ?_⟩
      · rw [if_neg he]
        have hv : (process_vehicle_data nowOrd todayStr lt Mode.a c items).1 =
            c ++ (processList nowOrd todayStr lt items).map Entry.data := by
          simp [process_vehicle_data]
        rw [hv, hds, List.append_assoc]
      · intro e hee
        rcases List.mem_append.mp hee with hmem | hmem
        · obtain ⟨r, _, rfl⟩ := List.mem_map.mp hmem
          rfl
        · exact hall e hmem

theorem runBatches_from_none (nowOrd : Int) (todayStr : String)
    (batches : List (String × List JVal)) :
    runBatches nowOrd todayStr batches none = none ∨
      ∃ c : List Entry,
        runBatches nowOrd todayStr batches none = some (Entry.header :: c) ∧
          ∀ e ∈ c, e.isHeader = false := by
  induction batches with
  | nil => exact Or.inl rfl
  | cons b rest ih =>
    obtain ⟨lt, items⟩ := b
    simp only [runBatches, categoryWrite]
    by_cases he : items.isEmpty
    · rw [if_pos he]
      exact ih
    · right
      rw [if_neg he]
      have hw : (process_vehicle_data nowOrd todayStr lt Mode.w [] items).1 =
          Entry.header :: (processList nowOrd todayStr lt items).map Entry.data := by
        simp [process_vehicle_data]
      rw [hw]
      obtain ⟨ds, hds, hall⟩ := runBatches_from_some nowOrd todayStr rest
        (Entry.header :: (processList nowOrd todayStr lt items).map Entry.data)
      refine ⟨(processList nowOrd todayStr lt items).map Entry.data ++ ds, ?_, ?_⟩
      · simpa using hds
      · intro e hee
        rcases List.mem_append.mp hee with hmem | hmem
        · obtain ⟨r, _, rfl⟩ := List.mem_map.mp hmem
          rfl
        · exact hall e hmem

/-- **C7.**  Starting from a non-existent output file, any sequence of
category writes (the per-file, per-category loop of `process_directory`)
that creates the file produces a content whose first line is the header
and which contains exactly one header line: the first write runs in
create mode and writes the header, every later write appends data rows
only. -/
theorem C7_single_header (nowOrd : Int) (todayStr : String)
    (batches : List (String × List JVal)) (c : List Entry)
    (h : runBatches nowOrd todayStr batches none = some c) :
    c.countP (fun e => e.isHeader) = 1 ∧ c.head? = some Entry.header := by
  rcases runBatches_from_none nowOrd todayStr batches with hn | ⟨c', hc', hall⟩
  · rw [h] at hn; cases hn
  · rw [h] at hc'
    obtain rfl := Option.some_inj.mp hc'.symm
    constructor
    · have hz : c'.countP (fun e => e.isHeader) = 0 :=
        List.countP_eq_zero.mpr (by intro e he; simp [hall e he])
      have hh : Entry.header.isHeader = true := rfl
      simp [List.countP_cons, hz, hh]
    · rfl

/-- Witness for C7: one batch with one (policy-skipped) record creates the
file with the lone header line. -/
theorem C7_single_header_witness :
    ([Entry.header].countP (fun e => e.isHeader) = 1 ∧
      ([Entry.header] : List Entry).head? = some Entry.header) :=
  C7_single_header 737425 "2020-01-01" [("commercial", [.jobj []])] [Entry.header] rfl

theorem lookupKey_mem {α : Type} {l : List (String × α)} {key : String} {v : α}
    (h : lookupKey l key = some v) : ∃ k, (k, v) ∈ l := by
  induction l with
  | nil => cases h
  | cons p t ih =>
    obtain ⟨pk, pv⟩ := p
    simp only [lookupKey] at h
    split_ifs at h with hk
    · exact ⟨pk, by simp [Option.some_inj.mp h]⟩
    · obtain ⟨k2, hm⟩ := ih h
      exact ⟨k2, List.mem_cons_of_mem _ hm⟩

theorem get_month_number_bounds {v : JVal} {m : Nat}
    (h : get_month_number v = some m) : 1 ≤ m ∧ m ≤ 12 := by
  cases v with
  | jstr s =>
    simp only [get_month_number, Option.some_inj] at h
    subst h
    cases hl : lookupKey month_mapping s with
    | none => simp
    | some k =>
      obtain ⟨key, hkm⟩ := lookupKey_mem hl
      have hb : ∀ p ∈ month_mapping, 1 ≤ p.2 ∧ p.2 ≤ 12 := by decide
      simpa [hl] using hb (key, k) hkm
  | jobj f => cases h
  | jarr xs => cases h
  | jnull => simp only [get_month_number, Option.some_inj] at h; omega
  | jbool b => simp only [get_month_number, Option.some_inj] at h; omega
  | jint n => simp only [get_month_number, Option.some_inj] at h; omega
  | jfloat q => simp only [get_month_number, Option.some_inj] at h; omega

theorem prodYM_month_bounds {fields : List (String × JVal)} {yv : JVal} {m : Nat}
    (h : prodYM fields = some (yv, m)) : 1 ≤ m ∧ m ≤ 12 := by
  unfold prodYM at h
  obtain ⟨vd, hvd, h⟩ := Option.bind_eq_some.mp h
  obtain ⟨yv2, hyv, h⟩ := Option.bind_eq_some.mp h
  obtain ⟨md, hmd, h⟩ := Option.bind_eq_some.mp h
  obtain ⟨mt, hmt, h⟩ := Option.bind_eq_some.mp h
  obtain ⟨m2, hm2, h⟩ := Option.bind_eq_some.mp h
  have hpair := Option.some_inj.mp h
  have hm : m2 = m := congrArg Prod.snd hpair
  exact hm ▸ get_month_number_bounds hm2

theorem datetimeYear_bounds {yv : JVal} {y : Int}
    (h : datetimeYear yv = some y) : 1 ≤ y ∧ y ≤ 9999 := by
  cases yv with
  | jint n =>
    simp only [datetimeYear] at h
    split_ifs at h with hb
    obtain rfl := Option.some_inj.mp h
    exact hb
  | jbool b =>
    simp only [datetimeYear] at h
    split_ifs at h
    obtain rfl := Option.some_inj.mp h
    omega
  | jnull => cases h
  | jfloat q => cases h
  | jstr s => cases h
  | jarr xs => cases h
  | jobj f => cases h

theorem datetimeYear_jint {n y : Int} (h : datetimeYear (.jint n) = some y) :
    y = n := by
  simp only [datetimeYear] at h
  split_ifs at h with hb
  exact (Option.some_inj.mp h).symm

theorem kmPerYearOf_some {yrs : Rat} {km : JVal} {kp : Rat}
    (h : kmPerYearOf yrs km = some kp) :
    (yrs ≤ 0 → kp = 0) ∧
      (0 < yrs → ∃ k, asNum km = some k ∧
        kp = if 0 < k then round2 (k / yrs) else 0) := by
  unfold kmPerYearOf at h
  split_ifs at h with hpos
  · obtain ⟨k, hk, hv⟩ := Option.map_eq_some'.mp h
    exact ⟨fun hle => absurd hpos (not_lt.mpr hle), fun _ => ⟨k, hk, hv.symm⟩⟩
  · have h0 : kp = 0 := (Option.some_inj.mp h).symm
    exact ⟨fun _ => h0, fun hp => absurd hp hpos⟩

/-- **C2 (amended).**  For every successfully normalized record:
`number_of_years` is `round(days / 365.25, 2)`; `km_per_year` is `0`
whenever the *unrounded* years value is `≤ 0`, and otherwise equals
`round(km / years, 2)` **only when `km > 0`**, with `km ≤ 0` (including
the claim's `km = 0` and also negative `km`, where the claim as stated
demanded `round(km / number_of_years, 2)`) giving `0`; the guard and the
divisor use the unrounded years value, not the rounded output field. -/
theorem C2_km_per_year_amended (nowOrd : Int) (todayStr lt : String)
    (fields : List (String × JVal))
    (hok : (processItem nowOrd todayStr lt (.jobj fields)).isOk = true) :
    ∃ yv m y, prodYM fields = some (yv, m) ∧ datetimeYear yv = some y ∧
      (processItem nowOrd todayStr lt (.jobj fields)).rowOf.map Row.number_of_years =
        some (round2 (calculate_years_since_production nowOrd y m)) ∧
      (calculate_years_since_production nowOrd y m ≤ 0 →
        (processItem nowOrd todayStr lt (.jobj fields)).rowOf.map Row.km_per_year =
          some 0) ∧
      (0 < calculate_years_since_production nowOrd y m →
        ∃ kv k,
          (processItem nowOrd todayStr lt (.jobj fields)).rowOf.map Row.km = some kv ∧
          asNum kv = some k ∧
          (processItem nowOrd todayStr lt (.jobj fields)).rowOf.map Row.km_per_year =
            some (if 0 < k then
              round2 (k / calculate_years_since_production nowOrd y m)
            else 0)) := by
  obtain ⟨r, hr⟩ := ItemResult.isOk_iff.mp hok
  have hbr := (processItem_ok_iff.mp hr).2.2
  obtain ⟨yv, m, y, hpm, hy, hpd, hny, hkm, hkmpy, hhp, hcity, hhand⟩ := buildRow_some hbr
  obtain ⟨hle, hpos⟩ := kmPerYearOf_some hkmpy
  refine ⟨yv, m, y, hpm, hy, ?_, ?_, ?_⟩
  · rw [hr]
    simp [ItemResult.rowOf, hny]
  · intro hyrs
    rw [hr]
    simp [ItemResult.rowOf, hle hyrs]
  · intro hyrs
    obtain ⟨k, hk, hv⟩ := hpos hyrs
    refine ⟨r.km, k, ?_, hk, ?_⟩
    · rw [hr]
      rfl
    · rw [hr]
      simp [ItemResult.rowOf, hv]

/-- A fully valid concrete record: 60000 km, produced 2020-01, listed
3653 days later. -/
def c2wFields : List (String × JVal) :=
  [("price", .jint 50000),
   ("manufacturer", .jobj [("text", .jstr "Toyota")]),
   ("model", .jobj [("text", .jstr "Corolla")]),
   ("subModel", .jobj [("text", .jstr "1.8 132 כ״ס")]),
   ("vehicleDates", .jobj [("yearOfProduction", .jint 2020),
                           ("monthOfProduction", .jobj [("text", .jstr "ינואר")])]),
   ("token", .jstr "abc123"),
   ("km", .jint 60000)]

/-- Witness for C2 (amended) at `c2wFields` with `nowOrd = 741078`
(3653 days after 2020-01-01). -/
theorem C2_km_per_year_amended_witness :
    ∃ yv m y, prodYM c2wFields = some (yv, m) ∧ datetimeYear yv = some y ∧
      (processItem 741078 "2030-01-03" "commercial" (.jobj c2wFields)).rowOf.map
          Row.number_of_years =
        some (round2 (calculate_years_since_production 741078 y m)) ∧
      (calculate_years_since_production 741078 y m ≤ 0 →
        (processItem 741078 "2030-01-03" "commercial" (.jobj c2wFields)).rowOf.map
            Row.km_per_year = some 0) ∧
      (0 < calculate_years_since_production 741078 y m →
        ∃ kv k,
          (processItem 741078 "2030-01-03" "commercial" (.jobj c2wFields)).rowOf.map
              Row.km = some kv ∧
          asNum kv = some k ∧
          (processItem 741078 "2030-01-03" "commercial" (.jobj c2wFields)).rowOf.map
              Row.km_per_year =
            some (if 0 < k then
              round2 (k / calculate_years_since_production 741078 y m)
            else 0)) :=
  C2_km_per_year_amended 741078 "2030-01-03" "commercial" c2wFields
    (by with_unfolding_all rfl)

/-- A valid record with a *negative* `km` value. -/
def c2cexFields : List (String × JVal) :=
  [("price", .jint 1000),
   ("manufacturer", .jobj [("text", .jstr "A")]),
   ("model", .jobj [("text", .jstr "B")]),
   ("subModel", .jobj [("text", .jstr "C")]),
   ("vehicleDates", .jobj [("yearOfProduction", .jint 2020)]),
   ("token", .jstr "t"),
   ("km", .jint (-5))]

/-- Counterexample to **C2** as stated: this record normalizes
successfully with `km = -5` present (so not "km == 0 or absent") and
`number_of_years = 10 > 0`, so the claim requires
`km_per_year = round(km / number_of_years, 2) = -0.5`; the code computes
`0` because its guard requires `km > 0`, not merely `km ≠ 0`. -/
theorem C2_counterexample :
    (processItem 741078 "2030-01-03" "private" (.jobj c2cexFields)).rowOf.map
        Row.km = some (.jint (-5)) ∧
    (processItem 741078 "2030-01-03" "private" (.jobj c2cexFields)).rowOf.map
        Row.number_of_years = some 10 ∧
    (0 : Rat) < 10 ∧
    (processItem 741078 "2030-01-03" "private" (.jobj c2cexFields)).rowOf.map
        Row.km_per_year = some 0 ∧
    round2 ((-5 : Rat) / 10) = -1/2 ∧
    (0 : Rat) ≠ -1/2 := by
  refine ⟨?_, ?_, by norm_num, ?_, ?_, by norm_num⟩
  · with_unfolding_all rfl
  · with_unfolding_all rfl
  · with_unfolding_all rfl
  · with_unfolding_all rfl

/-- **C9.**  (1) A record that passes the price and required-field checks
but whose `hand` field is a mapping without an `id` key raises `KeyError`
at `item.get('hand', {"id": 0})["id"]`, so the whole record is dropped
(`err`, no row).  (2) For every written row, the default `0` is used
exactly when `hand` is absent; when `hand` is present the row's value is
the actual `id` entry of the (necessarily well-formed) `hand` mapping. -/
theorem C9_hand_default_only_when_absent :
    (∀ (nowOrd : Int) (todayStr lt : String)
        (fields hf : List (String × JVal)),
      priceSkip fields = false → reqSkip fields = false →
      lookupKey fields "hand" = some (.jobj hf) → lookupKey hf "id" = none →
      processItem nowOrd todayStr lt (.jobj fields) = .err) ∧
    (∀ (nowOrd : Int) (todayStr lt : String) (fields : List (String × JVal)),
      (processItem nowOrd todayStr lt (.jobj fields)).isOk = true →
      (lookupKey fields "hand" = none →
        (processItem nowOrd todayStr lt (.jobj fields)).rowOf.map Row.hand =
          some (.jint 0)) ∧
      (∀ hv, lookupKey fields "hand" = some hv →
        ∃ hfs hid, hv = .jobj hfs ∧ lookupKey hfs "id" = some hid ∧
          (processItem nowOrd todayStr lt (.jobj fields)).rowOf.map Row.hand =
            some hid)) := by
  constructor
  · intro nowOrd todayStr lt fields hf h1 h2 h3 h4
    have hnone : ∀ r, buildRow nowOrd todayStr lt fields ≠ some r := by
      intro r hb
      obtain ⟨yv, m, y, _, _, _, _, _, _, _, _, hhand⟩ := buildRow_some hb
      unfold handOf at hhand
      rw [h3] at hhand
      simp only [Option.getD_some, pyIndex] at hhand
      rw [h4] at hhand
      cases hhand
    simp only [processItem, h1, h2]
    simp only [Bool.false_eq_true, if_false]
    cases hb : buildRow nowOrd todayStr lt fields with
    | some r => exact absurd hb (hnone r)
    | none => rfl
  · intro nowOrd todayStr lt fields hok
    obtain ⟨r, hr⟩ := ItemResult.isOk_iff.mp hok
    have hbr := (processItem_ok_iff.mp hr).2.2
    obtain ⟨yv, m, y, _, _, _, _, _, _, _, _, hhand⟩ := buildRow_some hbr
    constructor
    · intro habs
      unfold handOf at hhand
      rw [habs] at hhand
      simp only [Option.getD_none, pyIndex, lookupKey, if_pos rfl] at hhand
      rw [hr]
      simp [ItemResult.rowOf, ← Option.some_inj.mp hhand]
    · intro hv hpres
      unfold handOf at hhand
      rw [hpres] at hhand
      simp only [Option.getD_some] at hhand
      cases hv with
      | jobj hfs =>
        refine ⟨hfs, r.hand, rfl, by simpa [pyIndex] using hhand, ?_⟩
        rw [hr]
        rfl
      | jnull => simp [pyIndex] at hhand
      | jbool b => simp [pyIndex] at hhand
      | jint n => simp [pyIndex] at hhand
      | jfloat q => simp [pyIndex] at hhand
      | jstr s => simp [pyIndex] at hhand
      | jarr xs => simp [pyIndex] at hhand

/-- A record whose `hand` is a mapping without `id`. -/
def c9badFields : List (String × JVal) :=
  [("price", .jint 1000),
   ("manufacturer", .jobj [("text", .jstr "A")]),
   ("model", .jobj [("text", .jstr "B")]),
   ("subModel", .jobj [("text", .jstr "C")]),
   ("vehicleDates", .jobj [("yearOfProduction", .jint 2015)]),
   ("token", .jstr "t"),
   ("hand", .jobj [("text", .jstr "x")])]

/-- The same record with `hand` entirely absent. -/
def c9okFields : List (String × JVal) :=
  [("price", .jint 1000),
   ("manufacturer", .jobj [("text", .jstr "A")]),
   ("model", .jobj [("text", .jstr "B")]),
   ("subModel", .jobj [("text", .jstr "C")]),
   ("vehicleDates", .jobj [("yearOfProduction", .jint 2015)]),
   ("token", .jstr "t")]

/-- Witness for C9: the malformed-`hand` record is dropped, the
absent-`hand` record gets the default `0`. -/
theorem C9_hand_default_only_when_absent_witness :
    processItem 741078 "2030-01-03" "private" (.jobj c9badFields) = .err ∧
    (processItem 741078 "2030-01-03" "private" (.jobj c9okFields)).rowOf.map
        Row.hand = some (.jint 0) := by
  constructor
  · exact C9_hand_default_only_when_absent.1 741078 "2030-01-03" "private"
      c9badFields [("text", .jstr "x")] rfl rfl rfl rfl
  · exact (C9_hand_default_only_when_absent.2 741078 "2030-01-03" "private"
      c9okFields (by with_unfolding_all rfl)).1 rfl

theorem digitChar_isDigit (n : Nat) : isDigitChar (digitChar n) = true := by
  unfold digitChar
  split <;> decide

theorem natStrL_irrel {j k n : Nat} (h1 : n < j) (h2 : n < k) :
    natStrL j n = natStrL k n := by
  induction j generalizing k n with
  | zero => omega
  | succ f ih =>
    cases k with
    | zero => omega
    | succ g =>
      simp only [natStrL]
      split_ifs with hlt
      · rfl
      · exact congrArg (fun l => l ++ [digitChar (n % 10)])
          (ih (by omega) (by omega))

theorem natStrRec_data_lt {n : Nat} (h : n < 10) :
    (natStrRec n).data = [digitChar n] := by
  show natStrL (n + 1) n = [digitChar n]
  simp only [natStrL, if_pos h]

theorem natStrRec_data_ge {n : Nat} (h : ¬ n < 10) :
    (natStrRec n).data = (natStrRec (n / 10)).data ++ [digitChar (n % 10)] := by
  show natStrL (n + 1) n = natStrL (n / 10 + 1) (n / 10) ++ [digitChar (n % 10)]
  rw [show natStrL (n + 1) n = natStrL n (n / 10) ++ [digitChar (n % 10)] from by
    simp only [natStrL, if_neg h]]
  exact congrArg (fun l => l ++ [digitChar (n % 10)])
    (natStrL_irrel (by omega) (by omega))

theorem natStr_digits4 {n : Nat} (h1 : 1000 ≤ n) (h2 : n ≤ 9999) :
    ∃ a b c d, (natStrRec n).data = [a, b, c, d] ∧
      isDigitChar a = true ∧ isDigitChar b = true ∧ isDigitChar c = true ∧
      isDigitChar d = true := by
  have h10 : ¬ n < 10 := by omega
  have h100 : ¬ n / 10 < 10 := by omega
  have h1000 : ¬ n / 10 / 10 < 10 := by omega
  have h4 : n / 10 / 10 / 10 < 10 := by omega
  rw [natStrRec_data_ge h10, natStrRec_data_ge h100, natStrRec_data_ge h1000,
    natStrRec_data_lt h4]
  exact ⟨_, _, _, _, rfl, digitChar_isDigit _, digitChar_isDigit _,
    digitChar_isDigit _, digitChar_isDigit _⟩

theorem month2_digits (m : Nat) :
    ∃ e f, (month2 m).data = [e, f] ∧ isDigitChar e = true ∧
      isDigitChar f = true := by
  unfold month2
  split_ifs
  · exact ⟨'0', digitChar m, rfl, by decide, digitChar_isDigit m⟩
  · exact ⟨digitChar (m / 10), digitChar (m % 10), rfl, digitChar_isDigit _,
      digitChar_isDigit _⟩

theorem matchesDatePattern_shape {s1 s2 : String}
    (h1 : ∃ a b c d, s1.data = [a, b, c, d] ∧ isDigitChar a = true ∧
      isDigitChar b = true ∧ isDigitChar c = true ∧ isDigitChar d = true)
    (h2 : ∃ e f, s2.data = [e, f] ∧ isDigitChar e = true ∧
      isDigitChar f = true) :
    matchesDatePattern (s1 ++ "-" ++ s2 ++ "-01") = true := by
  obtain ⟨a, b, c, d, hd1, ha, hb, hc, hd⟩ := h1
  obtain ⟨e, f, hd2, he, hf⟩ := h2
  have hdata : (s1 ++ "-" ++ s2 ++ "-01").data =
      [a, b, c, d, '-', e, f, '-', '0', '1'] := by
    rw [String.data_append, String.data_append, String.data_append, hd1, hd2]
    rfl
  unfold matchesDatePattern
  rw [hdata]
  simp [ha, hb, hc, hd, he, hf]

/-- **C3 (amended).**  Every written row's `productionDate` is
`f"{year}-{month:02d}-01"` with the month drawn from the Hebrew table
(hence in `[1, 12]`) and the year accepted by `datetime` (hence in
`[1, 9999]`); the string matches `^\d\x7b4\x7d-\d\x7b2\x7d-01$` whenever the
year value is an integer `≥ 1000` — years `1..999` render with fewer than
four digits, so the pattern clause of the claim holds only on that
restricted domain (see the counterexample). -/
theorem C3_production_date_amended (nowOrd : Int) (todayStr lt : String)
    (fields : List (String × JVal))
    (hok : (processItem nowOrd todayStr lt (.jobj fields)).isOk = true) :
    ∃ yv m y, prodYM fields = some (yv, m) ∧ datetimeYear yv = some y ∧
      1 ≤ m ∧ m ≤ 12 ∧ 1 ≤ y ∧ y ≤ 9999 ∧
      (processItem nowOrd todayStr lt (.jobj fields)).rowOf.map
          Row.productionDate =
        some (pyStr yv ++ "-" ++ month2 m ++ "-01") ∧
      (∀ yi : Int, yv = .jint yi → 1000 ≤ yi →
        matchesDatePattern (pyStr yv ++ "-" ++ month2 m ++ "-01") = true) := by
  obtain ⟨r, hr⟩ := ItemResult.isOk_iff.mp hok
  have hbr := (processItem_ok_iff.mp hr).2.2
  obtain ⟨yv, m, y, hpm, hy, hpd, _, _, _, _, _, _⟩ := buildRow_some hbr
  obtain ⟨hm1, hm2⟩ := prodYM_month_bounds hpm
  obtain ⟨hy1, hy2⟩ := datetimeYear_bounds hy
  refine ⟨yv, m, y, hpm, hy, hm1, hm2, hy1, hy2, ?_, ?_⟩
  · rw [hr]
    simp [ItemResult.rowOf, hpd]
  · intro yi hyi h1000
    subst hyi
    have hyn : y = yi := datetimeYear_jint hy
    have hps : pyStr (.jint yi) = natStrRec yi.toNat := by
      show intStr yi = natStrRec yi.toNat
      unfold intStr
      rw [if_neg (by omega)]
    rw [hps]
    exact matchesDatePattern_shape
      (natStr_digits4 (by omega) (by omega)) (month2_digits m)

/-- A fully valid record produced in year 999. -/
def c3cexFields : List (String × JVal) :=
  [("price", .jint 1000),
   ("manufacturer", .jobj [("text", .jstr "A")]),
   ("model", .jobj [("text", .jstr "B")]),
   ("subModel", .jobj [("text", .jstr "C")]),
   ("vehicleDates", .jobj [("yearOfProduction", .jint 999)]),
   ("token", .jstr "t")]

/-- Counterexample to **C3** as stated: `yearOfProduction = 999` is a
valid record (it normalizes successfully — `datetime` accepts any year in
`1..9999`), but its `productionDate` renders as `999-01-01`, which does
not match `^\d\x7b4\x7d-\d\x7b2\x7d-01$`. -/
theorem C3_counterexample :
    (processItem 741078 "2030-01-03" "private" (.jobj c3cexFields)).rowOf.map
        Row.productionDate = some "999-01-01" ∧
    matchesDatePattern "999-01-01" = false := by
  constructor
  · with_unfolding_all rfl
  · decide

theorem citySpecAmended_eq_cityOf {fields : List (String × JVal)}
    (haddr : addrOkB fields = true) :
    citySpecAmended fields = cityOf fields := by
  unfold citySpecAmended cityOf
  cases ha : lookupKey fields "address" with
  | none => rfl
  | some a =>
    unfold addrOkB at haddr
    rw [ha] at haddr
    cases a with
    | jobj af =>
      simp only [pyInStr, Option.bind_eq_bind, Option.some_bind]
      cases hcv : lookupKey af "city" with
      | some cv =>
        have hk : hasKey af "city" = true := by simp [hasKey, hcv]
        simp [pyIndex, hk, hcv]
        cases cv <;> simp [pyGetD]
      | none =>
        have hk : hasKey af "city" = false := by simp [hasKey, hcv]
        simp only [pyIndex, hk, hcv, Bool.false_eq_true, if_false]
        cases hav : lookupKey af "area" with
        | some av =>
          have hk2 : hasKey af "area" = true := by simp [hasKey, hav]
          simp [pyIndex, hk2, hav]
          cases av <;> simp [pyGetD]
        | none =>
          have hk2 : hasKey af "area" = false := by simp [hasKey, hav]
          simp [pyIndex, hk2, hav]
    | jnull => cases haddr
    | jbool b => cases haddr
    | jint n => cases haddr
    | jfloat q => cases haddr
    | jstr str => cases haddr
    | jarr xs => cases haddr

/-- **C6 (amended).**  For every written row whose `address` field is
absent or a mapping (the shape the data model gives it), `city` is chosen
by the *presence of the keys* `city` / `area` in the address — not by the
presence of their `text` sub-fields: if `city` is a present key, the row
gets `address['city'].get('text', '')` (empty when the text is missing,
with no fallback to `area`); else if `area` is a present key, the row
gets `address['area'].get('text', '')`; else the empty string. -/
theorem C6_city_amended (nowOrd : Int) (todayStr lt : String)
    (fields : List (String × JVal))
    (hok : (processItem nowOrd todayStr lt (.jobj fields)).isOk = true)
    (haddr : addrOkB fields = true) :
    citySpecAmended fields =
      (processItem nowOrd todayStr lt (.jobj fields)).rowOf.map Row.city := by
  obtain ⟨r, hr⟩ := ItemResult.isOk_iff.mp hok
  have hbr := (processItem_ok_iff.mp hr).2.2
  obtain ⟨yv, m, y, _, _, _, _, _, _, _, hcity, _⟩ := buildRow_some hbr
  rw [hr]
  show citySpecAmended fields = some r.city
  rw [citySpecAmended_eq_cityOf haddr]
  exact hcity

/-- A valid record whose address has a `city` key *without* a `text`
entry, next to an `area` key *with* one. -/
def c6cexFields : List (String × JVal) :=
  [("price", .jint 1000),
   ("manufacturer", .jobj [("text", .jstr "A")]),
   ("model", .jobj [("text", .jstr "B")]),
   ("subModel", .jobj [("text", .jstr "C")]),
   ("vehicleDates", .jobj [("yearOfProduction", .jint 2015)]),
   ("token", .jstr "t"),
   ("address", .jobj [("city", .jobj []),
                      ("area", .jobj [("text", .jstr "North")])])]

/-- Counterexample to **C6** as stated: here `address.city.text` does not
exist while `address.area.text = "North"` does, so the claim requires
`city = "North"`; the code keys on the presence of the `city` *key* and
produces the empty string. -/
theorem C6_counterexample :
    (processItem 741078 "2030-01-03" "private" (.jobj c6cexFields)).rowOf.map
        Row.city = some (.jstr "") ∧
    citySpecClaimed c6cexFields = .jstr "North" ∧
    JVal.jstr "" ≠ JVal.jstr "North" := by
  refine ⟨by with_unfolding_all rfl, by with_unfolding_all rfl, ?_⟩
  intro h
  injection h with h2
  exact absurd h2 (by decide)

/-- A valid record with a complete `address.city.text`. -/
def c6wFields : List (String × JVal) :=
  [("price", .jint 1000),
   ("manufacturer", .jobj [("text", .jstr "A")]),
   ("model", .jobj [("text", .jstr "B")]),
   ("subModel", .jobj [("text", .jstr "C")]),
   ("vehicleDates", .jobj [("yearOfProduction", .jint 2015)]),
   ("token", .jstr "t"),
   ("address", .jobj [("city", .jobj [("text", .jstr "TLV")])])]

/-- Witness for C6 (amended) at a record with `address.city.text`. -/
theorem C6_city_amended_witness :
    citySpecAmended c6wFields =
      (processItem 741078 "2030-01-03" "private" (.jobj c6wFields)).rowOf.map
        Row.city ∧
    citySpecAmended c6wFields = some (.jstr "TLV") :=
  ⟨C6_city_amended 741078 "2030-01-03" "private" c6wFields
      (by with_unfolding_all rfl) rfl,
   by with_unfolding_all rfl⟩

/-- A fully valid record produced in year 2015 (4-digit year). -/
def c3wFields : List (String × JVal) :=
  [("price", .jint 1000),
   ("manufacturer", .jobj [("text", .jstr "A")]),
   ("model", .jobj [("text", .jstr "B")]),
   ("subModel", .jobj [("text", .jstr "C")]),
   ("vehicleDates", .jobj [("yearOfProduction", .jint 2015)]),
   ("token", .jstr "u")]

/-- Witness for C3 (amended) at a record with a 4-digit year. -/
theorem C3_production_date_amended_witness :
    ∃ yv m y, prodYM c3wFields = some (yv, m) ∧ datetimeYear yv = some y ∧
      1 ≤ m ∧ m ≤ 12 ∧ 1 ≤ y ∧ y ≤ 9999 ∧
      (processItem 741078 "2030-01-03" "solo" (.jobj c3wFields)).rowOf.map
          Row.productionDate =
        some (pyStr yv ++ "-" ++ month2 m ++ "-01") ∧
      (∀ yi : Int, yv = .jint yi → 1000 ≤ yi →
        matchesDatePattern (pyStr yv ++ "-" ++ month2 m ++ "-01") = true) :=
  C3_production_date_amended 741078 "2030-01-03" "solo" c3wFields
    (by with_unfolding_all rfl)

/-! ### C4: characterising the horsepower regex search -/

theorem space_not_digit {c : Char} (h : isSpaceChar c = true) :
    isDigitChar c = false := by
  unfold isSpaceChar at h
  simp only [Bool.or_eq_true, decide_eq_true_eq] at h
  rcases h with ((((rfl | rfl) | rfl) | rfl) | rfl) | rfl <;> decide

theorem takeWhile_append_eq {p : Char → Bool} {l1 l2 : List Char}
    (h1 : ∀ c ∈ l1, p c = true) (h2 : l2.takeWhile p = []) :
    (l1 ++ l2).takeWhile p = l1 := by
  induction l1 with
  | nil => simpa using h2
  | cons c t ih =>
    have hc := h1 c (by simp)
    simp only [List.cons_append, List.takeWhile_cons_of_pos hc]
    rw [ih (fun x hx => h1 x (by simp [hx]))]

theorem dropWhile_append_eq {p : Char → Bool} {l1 l2 : List Char}
    (h1 : ∀ c ∈ l1, p c = true) (h2 : l2.dropWhile p = l2) :
    (l1 ++ l2).dropWhile p = l2 := by
  induction l1 with
  | nil => simpa using h2
  | cons c t ih =>
    have hc := h1 c (by simp)
    simp only [List.cons_append, List.dropWhile_cons_of_pos hc]
    exact ih (fun x hx => h1 x (by simp [hx]))

theorem markerTail_takeWhile_digit {ws rest : List Char}
    (hws : ∀ c ∈ ws, isSpaceChar c = true) :
    (ws ++ (markerL ++ rest)).takeWhile isDigitChar = [] := by
  cases ws with
  | nil =>
    simp only [List.nil_append, markerL, List.cons_append]
    exact List.takeWhile_cons_of_neg (by decide)
  | cons w t =>
    have := space_not_digit (hws w (by simp))
    simp only [List.cons_append]
    exact List.takeWhile_cons_of_neg (by simp [this])

theorem markerTail_dropWhile_digit {ws rest : List Char}
    (hws : ∀ c ∈ ws, isSpaceChar c = true) :
    (ws ++ (markerL ++ rest)).dropWhile isDigitChar = ws ++ (markerL ++ rest) := by
  cases ws with
  | nil =>
    simp only [List.nil_append, markerL, List.cons_append]
    exact List.dropWhile_cons_of_neg (by decide)
  | cons w t =>
    have := space_not_digit (hws w (by simp))
    simp only [List.cons_append]
    exact List.dropWhile_cons_of_neg (by simp [this])

theorem matchAt_some_iff {cs : List Char} {n : Nat} :
    matchAt cs = some n ↔
      ∃ ds ws rest, cs = ds ++ (ws ++ (markerL ++ rest)) ∧ ds ≠ [] ∧
        (∀ c ∈ ds, isDigitChar c = true) ∧ (∀ c ∈ ws, isSpaceChar c = true) ∧
        n = digitsVal ds := by
  constructor
  · intro h
    unfold matchAt at h
    split_ifs at h with hcond
    obtain ⟨hne, hpre⟩ := hcond
    have hv := (Option.some_inj.mp h).symm
    rw [List.isPrefixOf_iff_prefix] at hpre
    obtain ⟨rest, hrest⟩ := hpre
    refine ⟨cs.takeWhile isDigitChar,
      (cs.dropWhile isDigitChar).takeWhile isSpaceChar, rest, ?_, hne, ?_, ?_, hv⟩
    · conv_lhs => rw [← List.takeWhile_append_dropWhile (p := isDigitChar) (l := cs)]
      congr 1
      conv_lhs =>
        rw [← List.takeWhile_append_dropWhile (p := isSpaceChar)
          (l := cs.dropWhile isDigitChar)]
      congr 1
      exact hrest.symm
    · intro c hc
      exact List.mem_takeWhile_imp hc
    · intro c hc
      exact List.mem_takeWhile_imp hc
  · rintro ⟨ds, ws, rest, rfl, hne, hds, hws, rfl⟩
    unfold matchAt
    have h1 : (ds ++ (ws ++ (markerL ++ rest))).takeWhile isDigitChar = ds :=
      takeWhile_append_eq hds (markerTail_takeWhile_digit hws)
    have h2 : (ds ++ (ws ++ (markerL ++ rest))).dropWhile isDigitChar =
        ws ++ (markerL ++ rest) :=
      dropWhile_append_eq hds (markerTail_dropWhile_digit hws)
    have h3 : (ws ++ (markerL ++ rest)).dropWhile isSpaceChar = markerL ++ rest := by
      refine dropWhile_append_eq hws ?_
      simp only [markerL, List.cons_append]
      exact List.dropWhile_cons_of_neg (by decide)
    rw [h1, h2, h3]
    rw [if_pos ⟨hne, List.isPrefixOf_iff_prefix.mpr (List.prefix_append _ _)⟩]

theorem specOccursAt_iff_matchAt {cs : List Char} {i n : Nat} :
    specOccursAt cs i n ↔ matchAt (cs.drop i) = some n := by
  unfold specOccursAt
  rw [matchAt_some_iff]
  constructor
  · rintro ⟨ds, ws, rest, hdec, hne, hds, hws, hval⟩
    exact ⟨ds, ws, rest, by simpa [List.append_assoc] using hdec, hne, hds, hws, hval⟩
  · rintro ⟨ds, ws, rest, hdec, hne, hds, hws, hval⟩
    exact ⟨ds, ws, rest, by simpa [List.append_assoc] using hdec, hne, hds, hws, hval⟩

theorem hpSearch_some_iff {cs : List Char} {n : Nat} :
    hpSearch cs = some n ↔
      ∃ i, matchAt (cs.drop i) = some n ∧
        ∀ j, j < i → matchAt (cs.drop j) = none := by
  induction cs with
  | nil =>
    have h0 : matchAt ([] : List Char) = none := by decide
    simp only [hpSearch, List.drop_nil]
    constructor
    · intro h
      cases h
    · rintro ⟨i, hmi, hlt⟩
      rw [h0] at hmi
      cases hmi
  | cons c t ih =>
    unfold hpSearch
    cases hm : matchAt (c :: t) with
    | some v =>
      constructor
      · intro h
        refine ⟨0, ?_, by omega⟩
        rw [List.drop_zero, hm]
        exact h
      · rintro ⟨i, hmi, hlt⟩
        cases i with
        | zero =>
          rw [List.drop_zero, hm] at hmi
          exact hmi
        | succ k =>
          have h0 := hlt 0 (by omega)
          rw [List.drop_zero, hm] at h0
          cases h0
    | none =>
      rw [ih]
      constructor
      · rintro ⟨i, hmi, hlt⟩
        refine ⟨i + 1, by simpa [List.drop_succ_cons] using hmi, ?_⟩
        intro j hj
        cases j with
        | zero => simpa [List.drop_zero] using hm
        | succ k =>
          have := hlt k (by omega)
          simpa [List.drop_succ_cons] using this
      · rintro ⟨i, hmi, hlt⟩
        cases i with
        | zero =>
          rw [List.drop_zero, hm] at hmi
          cases hmi
        | succ k =>
          refine ⟨k, by simpa [List.drop_succ_cons] using hmi, ?_⟩
          intro j hj
          have := hlt (j + 1) (by omega)
          simpa [List.drop_succ_cons] using this

theorem hpOfSub_inv {fields : List (String × JVal)} {h : Nat}
    (hh : hpOfSub fields = some h) :
    ∃ sm s, lookupKey fields "subModel" = some sm ∧
      pyIndex sm "text" = some (.jstr s) ∧ h = hpOf s := by
  unfold hpOfSub at hh
  obtain ⟨sm, hsm, hh⟩ := Option.bind_eq_some.mp hh
  obtain ⟨t, ht, hh⟩ := Option.bind_eq_some.mp hh
  cases t with
  | jstr s => exact ⟨sm, s, hsm, ht, (Option.some_inj.mp hh).symm⟩
  | jnull => cases hh
  | jbool b => cases hh
  | jint n => cases hh
  | jfloat q => cases hh
  | jarr xs => cases hh
  | jobj f => cases hh

/-- **C4.**  (1) When no integer token followed (up to whitespace) by the
marker `\u05db\u05f4\u05e1` occurs anywhere in the text, the extracted horsepower is 0.
(2) When such occurrences exist, the extracted horsepower is the value of
the *first* one (the least starting position), not any later occurrence.
(3) Every written row's `hp` field is `hpOf` of the record's
`subModel.text` string. -/
theorem C4_hp_first_marker :
    (∀ s : String,
      ((∀ i n, ¬ specOccursAt s.data i n) → hpOf s = 0) ∧
      (∀ i n, specOccursAt s.data i n →
        (∀ j m, specOccursAt s.data j m → i ≤ j) → hpOf s = n)) ∧
    (∀ (nowOrd : Int) (todayStr lt : String) (fields : List (String × JVal)),
      (processItem nowOrd todayStr lt (.jobj fields)).isOk = true →
      ∃ sm s, lookupKey fields "subModel" = some sm ∧
        pyIndex sm "text" = some (.jstr s) ∧
        (processItem nowOrd todayStr lt (.jobj fields)).rowOf.map Row.hp =
          some (hpOf s)) := by
  constructor
  · intro s
    constructor
    · intro hno
      have hall : ∀ i, matchAt (s.data.drop i) = none := by
        intro i
        cases hm : matchAt (s.data.drop i) with
        | none => rfl
        | some v => exact absurd (specOccursAt_iff_matchAt.mpr hm) (hno i v)
      have hs : hpSearch s.data = none := by
        cases hs : hpSearch s.data with
        | none => rfl
        | some v =>
          obtain ⟨i, hmi, _⟩ := hpSearch_some_iff.mp hs
          rw [hall i] at hmi
          cases hmi
      unfold hpOf
      rw [hs]
    · intro i n hocc hmin
      have hm := specOccursAt_iff_matchAt.mp hocc
      have hnone : ∀ j, j < i → matchAt (s.data.drop j) = none := by
        intro j hj
        cases hmj : matchAt (s.data.drop j) with
        | none => rfl
        | some v =>
          have := hmin j v (specOccursAt_iff_matchAt.mpr hmj)
          omega
      have hs : hpSearch s.data = some n := hpSearch_some_iff.mpr ⟨i, hm, hnone⟩
      unfold hpOf
      rw [hs]
  · intro nowOrd todayStr lt fields hok
    obtain ⟨r, hr⟩ := ItemResult.isOk_iff.mp hok
    have hbr := (processItem_ok_iff.mp hr).2.2
    obtain ⟨yv, m, y, _, _, _, _, _, _, hhp, _, _⟩ := buildRow_some hbr
    obtain ⟨sm, s, hsm, ht, hv⟩ := hpOfSub_inv hhp
    refine ⟨sm, s, hsm, ht, ?_⟩
    rw [hr]
    simp [ItemResult.rowOf, ← hv]

/-- Witness for C4: the empty text has no occurrence and yields 0; the
text `12\u05db\u05f4\u05e1` has its first (and only) occurrence at position 0 with
value 12; and the valid record `c2wFields` (subModel text
`1.8 132 \u05db\u05f4\u05e1`) gets `hp = hpOf "1.8 132 \u05db\u05f4\u05e1" = 132`. -/
theorem C4_hp_first_marker_witness :
    hpOf "" = 0 ∧ hpOf "12\u05db\u05f4\u05e1" = 12 ∧
    (∃ sm s, lookupKey c2wFields "subModel" = some sm ∧
      pyIndex sm "text" = some (.jstr s) ∧
      (processItem 741078 "2030-01-03" "commercial" (.jobj c2wFields)).rowOf.map
          Row.hp = some (hpOf s)) ∧
    hpOf "1.8 132 \u05db\u05f4\u05e1" = 132 := by
  refine ⟨?_, ?_, ?_, by with_unfolding_all rfl⟩
  · refine (C4_hp_first_marker.1 "").1 ?_
    intro i n h
    obtain ⟨ds, ws, rest, hdec, hne, _, _, _⟩ := h
    rw [show ("" : String).data.drop i = [] from by simp] at hdec
    have h3 := hdec.symm
    simp [markerL] at h3
  · refine (C4_hp_first_marker.1 "12\u05db\u05f4\u05e1").2 0 12 ?_ (fun j m _ => Nat.zero_le j)
    exact ⟨['1', '2'], [], [], rfl, by decide, by decide, by decide, by decide⟩
  · exact C4_hp_first_marker.2 741078 "2030-01-03" "commercial" c2wFields
      (by with_unfolding_all rfl)

end Yad2
